import Mathlib

/-!
# WinShield core engine — shallow embedding and verification

This development embeds the algorithmic core of the WinShield Windows
patcher (scanner correlation engine and catalog candidate resolution
engine) and proves the specified properties about it.

Modelling conventions:
* Python strings are Lean `String`s; Python's falsy test `if not s` on a
  string that may be absent or empty is modelled by comparison with `""`
  (absent and empty are indistinguishable to the code).
* Python `set`s are `Finset String` (or lists read up to membership).
* `datetime` values built with `day=1` are modelled by `Month`
  (year/month pair); `datetime` comparison is lexicographic.
* Python's stable sort (`sorted`, `list.sort`) is modelled by
  `List.insertionSort`, which is stable; a stable sort is uniquely
  determined by sortedness + stability + permutation, so this is exact.
-/

namespace WinShield

/-! ## Time-Window Builder (`winshield_scanner.py`, `build_month_ids_from_lcu`) -/

/-- A calendar month, the meaning of a `MonthId` string such as `"2023-Jan"`
(parsed by `strptime(.., "%Y-%b")` with `day=1`). -/
structure Month where
  year : Int
  month : Int
deriving DecidableEq

/-- Model of `datetime` comparison restricted to first-of-month values:
lexicographic on (year, month). -/
def monthLT (a b : Month) : Prop :=
  a.year < b.year ∨ (a.year = b.year ∧ a.month < b.month)

instance (a b : Month) : Decidable (monthLT a b) := by
  unfold monthLT; infer_instance

/-- The month-increment step of the loop in `build_month_ids_from_lcu`:
`month += 1; if month == 13: month = 1; year += 1`. -/
def monthSucc (m : Month) : Month :=
  let mm := m.month + 1
  if mm = 13 then ⟨m.year + 1, 1⟩ else ⟨m.year, mm⟩

/-- The `while True` loop of `build_month_ids_from_lcu`, with the remaining
capacity `max_months - len(month_ids)` as fuel.  Each iteration checks
`current > end or len >= max` (fuel exhausted), appends `current`, stops if
`current == end`, else advances to the next month. -/
def monthRangeAux : Nat → Month → Month → List Month
  | 0, _, _ => []
  | fuel + 1, current, e =>
    if monthLT e current then []
    else if current = e then [current]
    else current :: monthRangeAux fuel (monthSucc current) e

/-- The baseline fields consumed by `build_month_ids_from_lcu`.  A missing
or empty `LcuMonthId`/`MsrcLatestMonthId` is `none`. -/
structure Baseline where
  IsAdmin : Bool
  LcuMonthId : Option Month
  MsrcLatestMonthId : Option Month

/-- Model of `build_month_ids_from_lcu(baseline, max_months=48)`.  `now` is the
current month (used when `MsrcLatestMonthId` is absent).  Raised
`RuntimeError`s become `Except.error`. -/
def build_month_ids_from_lcu (baseline : Baseline) (now : Month)
    (max_months : Nat := 48) : Except String (List Month) :=
  if ¬ baseline.IsAdmin then
    .error "Baseline collected without administrative privileges"
  else
    match baseline.LcuMonthId with
    | none => .error "Baseline did not provide LcuMonthId"
    | some start0 =>
      let e := baseline.MsrcLatestMonthId.getD now
      let start := if monthLT e start0 then e else start0
      .ok (monthRangeAux max_months start e)

/-! ## Record Merger (`winshield_scanner.py`, `merge_kb_entries`) -/

/-- One incoming partial adapter record.  `KB = ""` stands for a missing or
empty `"KB"` field; a missing array is `[]` (the code reads
`entry.get(field) or []`). -/
structure InEntry where
  KB : String
  Months : List String
  Cves : List String
  Supersedes : List String
deriving DecidableEq

/-- One canonical (merged) record. -/
structure KbEntry where
  KB : String
  Months : List String
  Cves : List String
  Supersedes : List String
deriving DecidableEq

/-- Model of `if value and value not in target[field]: target[field].append(value)`. -/
def addValue (xs : List String) (v : String) : List String :=
  if v ≠ "" ∧ v ∉ xs then xs ++ [v] else xs

/-- The inner loop of `merge_kb_entries` for one field. -/
def mergeField (xs vs : List String) : List String :=
  vs.foldl addValue xs

/-- The mutation of `target` for one incoming entry: the record whose key
matches gets each of the three array fields merged. -/
def applyEntry (e : InEntry) (t : KbEntry) : KbEntry :=
  if t.KB = e.KB then
    { t with
      Months := mergeField t.Months e.Months
      Cves := mergeField t.Cves e.Cves
      Supersedes := mergeField t.Supersedes e.Supersedes }
  else t

/-- Merging one incoming entry into the accumulator (one iteration of the
outer loop of `merge_kb_entries`).  The accumulator is the dict
`existing` read as an association list in insertion order; `setdefault`
appends a fresh empty record when the key is new. -/
def mergeOne (acc : List KbEntry) (e : InEntry) : List KbEntry :=
  if e.KB = "" then acc
  else
    (if acc.any (fun t => t.KB = e.KB) then acc
     else acc ++ [⟨e.KB, [], [], []⟩]).map (applyEntry e)

/-- Model of `merge_kb_entries(existing, incoming)`. -/
def merge_kb_entries (acc : List KbEntry) (incoming : List InEntry) : List KbEntry :=
  incoming.foldl mergeOne acc

/-- Model of `sorted(set(xs))` on strings. -/
def sortedSet (xs : List String) : List String :=
  xs.dedup.insertionSort (· ≤ ·)

/-- A canonical record after the finalization loop in `main`, carrying the
derived `UpdateType`. -/
structure FinalEntry where
  KB : String
  Months : List String
  Cves : List String
  Supersedes : List String
  UpdateType : String
deriving DecidableEq

/-- The finalization loop of `main`: sort/dedup the three array fields and
classify as `"Superseding"` iff the superseded-set is non-empty. -/
def finalizeEntry (e : KbEntry) : FinalEntry :=
  let sup := sortedSet e.Supersedes
  { KB := e.KB
    Months := sortedSet e.Months
    Cves := sortedSet e.Cves
    Supersedes := sup
    UpdateType := if sup ≠ [] then "Superseding" else "Standalone" }

/-! ## Supersedence Resolver (`winshield_scanner.py`, `compute_supersedence`) -/

/-- The `supersedes_map` built by the first loop of `compute_supersedence`:
for each entry, every identifier it lists in `Supersedes` becomes a
successor of the entry's `KB`.  Values are Python sets, hence `dedup`. -/
def supersedesMap (entries : List KbEntry) (id : String) : List String :=
  ((entries.filter (fun e => e.KB = id)).flatMap KbEntry.Supersedes).dedup

/-- The finite universe of identifiers a traversal can touch: every
superseded identifier, every record key and every installed identifier. -/
def allNodes (entries : List KbEntry) (installed : List String) : Finset String :=
  (entries.flatMap KbEntry.Supersedes ++ entries.map KbEntry.KB ++ installed).toFinset

theorem supersedesMap_nodup (entries : List KbEntry) (x : String) :
    (supersedesMap entries x).Nodup :=
  List.nodup_dedup _

theorem supersedesMap_mem_allNodes (entries : List KbEntry) (installed : List String)
    (x y : String) (h : y ∈ supersedesMap entries x) :
    y ∈ allNodes entries installed := by
  unfold supersedesMap at h
  unfold allNodes
  rw [List.mem_dedup] at h
  rcases List.mem_flatMap.mp h with ⟨e, he, hy⟩
  have hmem : y ∈ entries.flatMap KbEntry.Supersedes :=
    List.mem_flatMap.mpr ⟨e, (List.mem_filter.mp he).1, hy⟩
  rw [List.mem_toFinset]
  exact List.mem_append.mpr (Or.inl (List.mem_append.mpr (Or.inl hmem)))

/-- The `while stack` loop of `compute_supersedence` for a single root.
`stack` is the explicit stack (top at the head), `seen` the per-root
visited set, `logical` the (shared) logical-presence accumulator and
`olds` collects every identifier reached from this root (the identifiers
this walk attributes to the root in `superseded_by`).  Each popped node's
successors are all added to `logical` and `olds`; the not-yet-seen ones
are marked seen and pushed.  Termination: every push removes a fresh
element of `univ` from the unseen pool. -/
def walk (adj : String → List String) (univ : Finset String)
    (hadj : ∀ x y, y ∈ adj x → y ∈ univ) (hnd : ∀ x, (adj x).Nodup) :
    List String → Finset String → Finset String → Finset String →
    Finset String × Finset String
  | [], _, logical, olds => (logical, olds)
  | current :: rest, seen, logical, olds =>
    walk adj univ hadj hnd
      (((adj current).filter (fun o => o ∉ seen)) ++ rest)
      (seen ∪ ((adj current).filter (fun o => o ∉ seen)).toFinset)
      (logical ∪ (adj current).toFinset) (olds ∪ (adj current).toFinset)
termination_by stack seen _ _ => 2 * (univ \ seen).card + stack.length
decreasing_by
  set t := (adj current).filter (fun o => o ∉ seen) with ht
  have hsub : t.toFinset ⊆ univ \ seen := by
    intro o ho
    rw [List.mem_toFinset, ht] at ho
    rcases List.mem_filter.mp ho with ⟨honbrs, hnotseen⟩
    refine Finset.mem_sdiff.mpr ⟨hadj current o honbrs, ?_⟩
    simpa using hnotseen
  have hnodup : t.Nodup := (hnd current).filter _
  have hcard : t.toFinset.card = t.length := List.toFinset_card_of_nodup hnodup
  have hdiff : univ \ (seen ∪ t.toFinset) = (univ \ seen) \ t.toFinset := by
    rw [Finset.sdiff_union_distrib]
    ext a
    simp only [Finset.mem_inter, Finset.mem_sdiff]
    tauto
  have hle : t.toFinset.card ≤ (univ \ seen).card := Finset.card_le_card hsub
  rw [hdiff, Finset.card_sdiff hsub, hcard]
  rw [hcard] at hle
  simp only [List.length_append, List.length_cons]
  omega

/-- One iteration of the outer `for root in installed_kbs` loop:
run the walk for `root` with `stack = [root]`, `seen = {root}`, and fold
the reached identifiers into the `superseded_by` map. -/
def superStep (adj : String → List String) (univ : Finset String)
    (hadj : ∀ x y, y ∈ adj x → y ∈ univ) (hnd : ∀ x, (adj x).Nodup)
    (acc : Finset String × (String → Finset String)) (root : String) :
    Finset String × (String → Finset String) :=
  let w := walk adj univ hadj hnd [root] {root} acc.1 ∅
  (w.1, fun x => if x ∈ w.2 then insert root (acc.2 x) else acc.2 x)

/-- Model of `compute_supersedence(kb_entries, installed_kbs)` up to the final
sorting of the `superseded_by` values: logical presence starts as
`installed_kbs` and each installed root is traversed in turn. -/
def computeSupersedenceCore (entries : List KbEntry) (installed : List String) :
    Finset String × (String → Finset String) :=
  installed.foldl
    (superStep (supersedesMap entries) (allNodes entries installed)
      (supersedesMap_mem_allNodes entries installed)
      (supersedesMap_nodup entries))
    (installed.toFinset, fun _ => ∅)

/-- Full `compute_supersedence`, with the `superseded_by` values sorted as in
`return logical_present, {k: sorted(v) for k, v in superseded_by.items()}`
(an identifier reached by no root maps to the empty list, matching
`superseded_by.get(kb_id, [])` at the use site). -/
def compute_supersedence (entries : List KbEntry) (installed : List String) :
    Finset String × (String → List String) :=
  let core := computeSupersedenceCore entries installed
  (core.1, fun k => (core.2 k).sort (· ≤ ·))

/-! ## Correlation Reporter (`winshield_scanner.py`, `print_kb_table`) -/

/-- The `kb_index` lookup of `print_kb_table`: entries with an empty `KB`
are skipped; on duplicate keys the later assignment wins (Python dict). -/
def kbIndexFind (entries : List FinalEntry) (kb : String) : Option FinalEntry :=
  ((entries.filter (fun e => e.KB ≠ "")).filter (fun e => e.KB = kb)).getLast?

/-- The row record used for identifier `kb`: the canonical entry when one
exists, else the synthetic `Unmapped` placeholder. -/
def rowEntry (entries : List FinalEntry) (kb : String) : FinalEntry :=
  match kbIndexFind entries kb with
  | some e => e
  | none => ⟨kb, [], [], [], "Unmapped"⟩

/-- The status column of `print_kb_table` for identifier `kb`. -/
def kbStatus (installed logicalPresent : Finset String)
    (supersededBy : String → List String) (kb : String) : String :=
  if kb ∈ installed then "Installed"
  else if kb ∈ logicalPresent then
    if supersededBy kb ≠ [] then
      "Superseded (" ++ String.intercalate ", " (supersededBy kb) ++ ")"
    else "Superseded"
  else "Missing"

/-! ## Catalog candidate resolution (`winshield_downloader.py`) -/

/-- One parsed catalog search result row. -/
structure CatalogCandidate where
  update_id : String
  title : String
  products : String
  classification : String
  last_updated : String
  version : String
  size : String
deriving DecidableEq

/-- Constraints derived from the baseline. -/
structure BaselineConstraints where
  windows_gen : String
  display_version : String
  build_major : String
  catalog_arch : String
deriving DecidableEq

/-- Whether `p` is a prefix of `s` (character lists). -/
def isPrefixList : List Char → List Char → Bool
  | [], _ => true
  | _ :: _, [] => false
  | p :: ps, c :: cs => (p = c) && isPrefixList ps cs

/-- Model of `str.lower()`: character-wise lowercasing (ASCII, as `Char.toLower`).
Structurally recursive so that concrete scores evaluate in proofs. -/
def lowerStr (s : String) : String :=
  String.mk (s.toList.map Char.toLower)

/-- Model of `str.strip()`: drop whitespace from both ends. -/
def trimStr (s : String) : String :=
  String.mk
    (((s.toList.dropWhile Char.isWhitespace).reverse.dropWhile
        Char.isWhitespace).reverse)

/-- Model of `str.startswith(pat)`. -/
def startsWithStr (s pat : String) : Bool :=
  isPrefixList pat.toList s.toList

/-- Whether `pat` occurs contiguously inside the second list. -/
def hasSubList (pat : List Char) : List Char → Bool
  | [] => pat.isEmpty
  | c :: rest => isPrefixList pat (c :: rest) || hasSubList pat rest

/-- Python's substring test `pat in s` (on already-normalized strings). -/
def containsStr (s pat : String) : Bool :=
  hasSubList pat.toList s.toList

/-- Model of `build_constraints(baseline)`.  Inputs are the four baseline fields
read as `str(baseline.get(..) or "")` (so a missing field is `""`). -/
def build_constraints (osName displayVersion arch build : String) :
    BaselineConstraints :=
  let os_name := lowerStr osName
  let display_version := trimStr displayVersion
  let archL := lowerStr arch
  let build_major :=
    if build ≠ "" then String.mk (build.toList.takeWhile (fun c => c ≠ '.'))
    else ""
  let windows_gen :=
    if containsStr os_name "windows 11" then "windows 11"
    else if containsStr os_name "windows 10" then "windows 10"
    else ""
  let catalog_arch :=
    if archL = "x64" ∨ archL = "amd64" then "x64"
    else if containsStr archL "arm64" then "arm64"
    else if archL = "x86" ∨ archL = "32-bit" then "x86"
    else "x64"
  ⟨windows_gen, display_version, build_major, catalog_arch⟩

/-- ASCII model of the `\w` character class used by the `\b` boundaries in
`re.search(r"\b\d{2}h[12]\b", title)`. -/
def isWordChar (c : Char) : Bool :=
  c.isAlpha || c.isDigit || c = '_'

/-- Whether the year+half pattern `\b\d{2}h[12]\b` matches at the start of
`cs`, where `prev` is the character just before `cs` (none at the start of
the string). -/
def yhAt (prev : Option Char) (cs : List Char) : Bool :=
  match cs with
  | a :: b :: c :: d :: rest =>
    (match prev with | none => true | some p => ¬ isWordChar p) &&
    a.isDigit && b.isDigit && c = 'h' && (d = '1' || d = '2') &&
    (match rest with | [] => true | e :: _ => ¬ isWordChar e)
  | _ => false

/-- Scan for the year+half pattern anywhere in the remaining characters. -/
def yhSearch (prev : Option Char) : List Char → Bool
  | [] => false
  | c :: rest => yhAt prev (c :: rest) || yhSearch (some c) rest

/-- Model of `re.search(r"\b\d{2}h[12]\b", title) is not None`. -/
def hasYearHalf (title : String) : Bool :=
  yhSearch none title.toList

/-- Whether the build pattern `\(\s*(\d{5})\.` matches at the start of
`cs`; returns the captured five digits. -/
def bnAt (cs : List Char) : Option (List Char) :=
  match cs with
  | '(' :: rest =>
    match rest.dropWhile Char.isWhitespace with
    | d1 :: d2 :: d3 :: d4 :: d5 :: '.' :: _ =>
      if d1.isDigit && d2.isDigit && d3.isDigit && d4.isDigit && d5.isDigit
      then some [d1, d2, d3, d4, d5] else none
    | _ => none
  | _ => none

/-- Model of `re.search(r"\(\s*(\d{5})\.", title)`: group 1 of the leftmost match. -/
def bnSearch : List Char → Option (List Char)
  | [] => none
  | c :: rest =>
    match bnAt (c :: rest) with
    | some g => some g
    | none => bnSearch rest

/-- Display-version contribution of `score_candidate` (rule block on
`dv = c.display_version.lower()`). -/
def dvDelta (title dv : String) : Int :=
  if dv = "" then 0
  else
    (if containsStr title dv then 25 else 0) +
    (if hasYearHalf title ∧ ¬ containsStr title dv then -15 else 0)

/-- Build-major contribution of `score_candidate` (the parenthesised
five-digit build pattern). -/
def bmDelta (title bm : String) : Int :=
  if bm = "" then 0
  else
    match bnSearch title.toList with
    | none => 0
    | some g => if String.mk g = bm then 10 else -5

/-- Architecture block of `score_candidate`: `none` is a hard exclusion,
`some d` the bonus contribution.  An architecture tag outside the three
buckets matches no branch of the `if/elif` chain. -/
def archDelta (title arch : String) : Option Int :=
  if arch = "x64" then
    if containsStr title "arm64-based" || containsStr title "x86-based" ||
        containsStr title "32-bit" then none
    else some (if containsStr title "x64-based" then 25 else 0)
  else if arch = "arm64" then
    if containsStr title "x64-based" || containsStr title "x86-based" ||
        containsStr title "32-bit" then none
    else some (if containsStr title "arm64-based" then 25 else 0)
  else if arch = "x86" then
    if containsStr title "x64-based" || containsStr title "arm64-based" then none
    else some (if containsStr title "x86-based" || containsStr title "32-bit"
               then 25 else 0)
  else some 0

/-- Model of `score_candidate(candidate, kb_id, c)`.  The Python code accumulates
bonuses and aborts with `-10_000` on any hard exclusion; since an abort
discards the accumulator, hoisting the exclusion tests above the bonus
sum yields the same value. -/
def score_candidate (candidate : CatalogCandidate) (kb_id : String)
    (c : BaselineConstraints) : Int :=
  let title := lowerStr candidate.title
  if ¬ containsStr title (lowerStr kb_id) then -10000
  else if c.windows_gen = "windows 10" ∧ containsStr title "windows 11" then -10000
  else if c.windows_gen = "windows 11" ∧ containsStr title "windows 10" then -10000
  else if startsWithStr c.windows_gen "windows" ∧ containsStr title "server" then
    -10000
  else if (archDelta title c.catalog_arch).isNone then -10000
  else
    50 + (if c.windows_gen ≠ "" ∧ containsStr title c.windows_gen then 40 else 0)
      + (archDelta title c.catalog_arch).getD 0
      + dvDelta title (lowerStr c.display_version)
      + bmDelta title c.build_major

/-- The message `"No candidate matched baseline constraints."` -/
def noMatchMsg : String := "No candidate matched baseline constraints."

/-- The message `f"Ambiguous match below confidence threshold (..)."` with the score interpolated. -/
def ambiguousMsg (best_score : Int) : String :=
  "Ambiguous match below confidence threshold (" ++ toString best_score ++ ")."

/-- The scored-and-filtered candidate list of `choose_best_candidate`:
`scored = [(score_candidate(c, ..), c) ...]` with `score < 0` discarded. -/
def survivors (candidates : List CatalogCandidate) (kb_id : String)
    (constraints : BaselineConstraints) : List (Int × CatalogCandidate) :=
  (candidates.map fun cd => (score_candidate cd kb_id constraints, cd)).filter
    fun p => 0 ≤ p.1

/-- Model of `choose_best_candidate(candidates, kb_id, constraints)`.  The stable
descending sort by score is `insertionSort` under `b.1 ≤ a.1`; an empty
survivor list (`if not scored`) yields `NoMatch`, else `scored[0]` is
inspected against the fixed confidence threshold 90. -/
def choose_best_candidate (candidates : List CatalogCandidate) (kb_id : String)
    (constraints : BaselineConstraints) :
    Option CatalogCandidate × Option String :=
  (((survivors candidates kb_id constraints).insertionSort
      fun a b => b.1 ≤ a.1).head?).elim
    (none, some noMatchMsg)
    (fun best =>
      if best.1 < 90 then (none, some (ambiguousMsg best.1))
      else (some best.2, none))

/-! ## Lemmas: time window -/

/-- Months on a linear scale. -/
def monthIdx (m : Month) : Int := 12 * m.year + m.month

/-- A month number producible by `strptime` (and preserved by the loop). -/
def ValidMonth (m : Month) : Prop := 1 ≤ m.month ∧ m.month ≤ 12

theorem monthIdx_succ (m : Month) : monthIdx (monthSucc m) = monthIdx m + 1 := by
  simp only [monthSucc, monthIdx]
  split <;> dsimp only <;> omega

theorem validMonth_succ {m : Month} (h : ValidMonth m) : ValidMonth (monthSucc m) := by
  simp only [monthSucc, ValidMonth] at *
  split <;> dsimp only <;> omega

theorem monthLT_irrefl (m : Month) : ¬ monthLT m m := by
  simp only [monthLT]; omega

theorem monthLT_succ_self (m : Month) : monthLT m (monthSucc m) := by
  simp only [monthSucc, monthLT]
  split <;> dsimp only <;> omega

theorem monthLT_trans {a b c : Month} (h1 : monthLT a b) (h2 : monthLT b c) :
    monthLT a c := by
  simp only [monthLT] at *; omega

instance : IsTrans Month monthLT := ⟨fun _ _ _ => monthLT_trans⟩

theorem monthLT_iff_idx {a b : Month} (ha : ValidMonth a) (hb : ValidMonth b) :
    monthLT a b ↔ monthIdx a < monthIdx b := by
  obtain ⟨ya, ma⟩ := a
  obtain ⟨yb, mb⟩ := b
  simp only [monthLT, monthIdx, ValidMonth] at *
  omega

theorem month_eq_iff_idx {a b : Month} (ha : ValidMonth a) (hb : ValidMonth b) :
    a = b ↔ monthIdx a = monthIdx b := by
  constructor
  · rintro rfl; rfl
  · intro h
    obtain ⟨ya, ma⟩ := a
    obtain ⟨yb, mb⟩ := b
    simp only [monthIdx, ValidMonth] at *
    simp only [Month.mk.injEq]
    omega

theorem monthRangeAux_length_le (f : Nat) (c e : Month) :
    (monthRangeAux f c e).length ≤ f := by
  induction f generalizing c with
  | zero => simp [monthRangeAux]
  | succ f ih =>
    simp only [monthRangeAux]
    split
    · simp
    · split
      · simp
      · simpa using ih (monthSucc c)

theorem monthRangeAux_head (f : Nat) (c e : Month) (hf : 1 ≤ f)
    (h : ¬ monthLT e c) : (monthRangeAux f c e).head? = some c := by
  cases f with
  | zero => omega
  | succ f =>
    simp only [monthRangeAux]
    split
    · exact absurd ‹monthLT e c› h
    · split <;> rfl

theorem monthRangeAux_head_or_nil (f : Nat) (c e : Month) :
    monthRangeAux f c e = [] ∨ (monthRangeAux f c e).head? = some c := by
  cases f with
  | zero => exact Or.inl rfl
  | succ f =>
    simp only [monthRangeAux]
    split
    · exact Or.inl rfl
    · split <;> exact Or.inr rfl

theorem monthRangeAux_chain (f : Nat) (c e : Month) :
    List.Chain' (fun a b => b = monthSucc a) (monthRangeAux f c e) := by
  induction f generalizing c with
  | zero => simp [monthRangeAux]
  | succ f ih =>
    simp only [monthRangeAux]
    split
    · simp
    · split
      · simp
      · rw [List.chain'_cons']
        refine ⟨?_, ih (monthSucc c)⟩
        intro b hb
        rcases monthRangeAux_head_or_nil f (monthSucc c) e with hnil | hhead
        · simp [hnil] at hb
        · rw [hhead] at hb
          simp only [Option.mem_def, Option.some.injEq] at hb
          exact hb.symm

theorem monthRangeAux_pairwise (f : Nat) (c e : Month) :
    (monthRangeAux f c e).Pairwise monthLT := by
  rw [← List.chain'_iff_pairwise]
  exact (monthRangeAux_chain f c e).imp fun a b h => h ▸ monthLT_succ_self a

theorem monthRangeAux_getLast (f : Nat) (c e : Month)
    (hc : ValidMonth c) (he : ValidMonth e) (hle : ¬ monthLT e c)
    (hlen : (monthRangeAux f c e).length < f) :
    (monthRangeAux f c e).getLast? = some e := by
  induction f generalizing c with
  | zero => simp at hlen
  | succ f ih =>
    rw [monthRangeAux] at hlen ⊢
    rw [if_neg hle] at hlen ⊢
    by_cases hce : c = e
    · simp [hce]
    · rw [if_neg hce] at hlen ⊢
      have hcv := (monthLT_iff_idx he hc).not.mp hle
      have hne := (month_eq_iff_idx hc he).not.mp hce
      have hsuccle : ¬ monthLT e (monthSucc c) := by
        rw [monthLT_iff_idx he (validMonth_succ hc), monthIdx_succ]
        omega
      have hlen' : (monthRangeAux f (monthSucc c) e).length < f := by
        simp only [List.length_cons] at hlen
        omega
      have htail := ih (monthSucc c) (validMonth_succ hc) hsuccle hlen'
      have hnonnil : monthRangeAux f (monthSucc c) e ≠ [] := by
        intro hnil
        rw [hnil] at htail
        simp at htail
      rw [List.getLast?_cons, htail]
      simp [hnonnil]

theorem monthRangeAux_self (f : Nat) (e : Month) (hf : 1 ≤ f) :
    monthRangeAux f e e = [e] := by
  cases f with
  | zero => omega
  | succ f =>
    simp [monthRangeAux, monthLT_irrefl e]

instance (m : Month) : Decidable (ValidMonth m) := by
  unfold ValidMonth; infer_instance

/-- C5: for every baseline with a start anchor and an end anchor, the
time-window builder returns an ordered, strictly monotonically increasing
sequence of consecutive month periods from start to end inclusive,
truncated to at most `max_months` entries; when start is chronologically
after end it returns exactly `[end]`; and on start `2023-Jan`, end
`2023-Apr`, max 48 it returns exactly
`[2023-Jan, 2023-Feb, 2023-Mar, 2023-Apr]`. -/
theorem time_window_spec (b : Baseline) (now : Month) (maxM : Nat) (st : Month)
    (hadmin : b.IsAdmin = true) (hst : b.LcuMonthId = some st) (hmax : 1 ≤ maxM)
    (hvst : ValidMonth st) (hvend : ValidMonth (b.MsrcLatestMonthId.getD now)) :
    (∃ l, build_month_ids_from_lcu b now maxM = .ok l ∧
      List.Chain' (fun a c => c = monthSucc a) l ∧
      l.Pairwise monthLT ∧
      l.length ≤ maxM ∧
      (monthLT (b.MsrcLatestMonthId.getD now) st →
        l = [b.MsrcLatestMonthId.getD now]) ∧
      (¬ monthLT (b.MsrcLatestMonthId.getD now) st →
        l.head? = some st ∧
        (l.length < maxM →
          l.getLast? = some (b.MsrcLatestMonthId.getD now)))) ∧
    build_month_ids_from_lcu ⟨true, some ⟨2023, 1⟩, some ⟨2023, 4⟩⟩ ⟨2025, 1⟩ 48 =
      .ok [⟨2023, 1⟩, ⟨2023, 2⟩, ⟨2023, 3⟩, ⟨2023, 4⟩] := by
  constructor
  · refine ⟨monthRangeAux maxM
      (if monthLT (b.MsrcLatestMonthId.getD now) st
        then b.MsrcLatestMonthId.getD now else st) (b.MsrcLatestMonthId.getD now),
      ?_, ?_, ?_, ?_, ?_, ?_⟩
    · simp [build_month_ids_from_lcu, hadmin, hst]
    · exact monthRangeAux_chain _ _ _
    · exact monthRangeAux_pairwise _ _ _
    · exact monthRangeAux_length_le _ _ _
    · intro hlt
      rw [if_pos hlt]
      exact monthRangeAux_self maxM _ hmax
    · intro hge
      rw [if_neg hge]
      exact ⟨monthRangeAux_head maxM st _ hmax hge,
        fun hlen => monthRangeAux_getLast maxM st _ hvst hvend hge hlen⟩
  · rfl

/-- Witness for C5 at the concrete window 2020-Nov .. 2021-Feb. -/
theorem time_window_spec_witness :
    (∃ l, build_month_ids_from_lcu ⟨true, some ⟨2020, 11⟩, some ⟨2021, 2⟩⟩
        ⟨2025, 1⟩ 48 = .ok l ∧
      List.Chain' (fun a c => c = monthSucc a) l ∧
      l.Pairwise monthLT ∧
      l.length ≤ 48 ∧
      (monthLT ⟨2021, 2⟩ ⟨2020, 11⟩ → l = [(⟨2021, 2⟩ : Month)]) ∧
      (¬ monthLT ⟨2021, 2⟩ ⟨2020, 11⟩ →
        l.head? = some ⟨2020, 11⟩ ∧
        (l.length < 48 → l.getLast? = some ⟨2021, 2⟩))) ∧
    build_month_ids_from_lcu ⟨true, some ⟨2023, 1⟩, some ⟨2023, 4⟩⟩ ⟨2025, 1⟩ 48 =
      .ok [⟨2023, 1⟩, ⟨2023, 2⟩, ⟨2023, 3⟩, ⟨2023, 4⟩] :=
  time_window_spec ⟨true, some ⟨2020, 11⟩, some ⟨2021, 2⟩⟩ ⟨2025, 1⟩ 48 ⟨2020, 11⟩
    rfl rfl (by decide) (by decide) (by decide)

/-! ## Lemmas: record merger -/

/-- The values one of the three array fields holds for key `k` in the
accumulator (empty when no record with key `k` exists). -/
def fieldOf (g : KbEntry → List String) (acc : List KbEntry) (k : String) :
    List String :=
  acc.flatMap fun t => if t.KB = k then g t else []

theorem mem_fieldOf (g : KbEntry → List String) (acc : List KbEntry) (k v : String) :
    v ∈ fieldOf g acc k ↔ ∃ t ∈ acc, t.KB = k ∧ v ∈ g t := by
  simp only [fieldOf, List.mem_flatMap]
  constructor
  · rintro ⟨t, ht, hv⟩
    by_cases h : t.KB = k
    · exact ⟨t, ht, h, by simpa [h] using hv⟩
    · simp [h] at hv
  · rintro ⟨t, ht, hk, hv⟩
    exact ⟨t, ht, by simpa [hk] using hv⟩

theorem mem_addValue (xs : List String) (v w : String) :
    w ∈ addValue xs v ↔ w ∈ xs ∨ (w = v ∧ v ≠ "") := by
  unfold addValue
  split
  · rename_i h
    simp only [List.mem_append, List.mem_singleton]
    constructor
    · rintro (hw | rfl)
      · exact Or.inl hw
      · exact Or.inr ⟨rfl, h.1⟩
    · rintro (hw | ⟨rfl, _⟩)
      · exact Or.inl hw
      · exact Or.inr rfl
  · rename_i h
    rw [not_and_or, not_not, not_not] at h
    constructor
    · exact Or.inl
    · rintro (hw | ⟨rfl, hv⟩)
      · exact hw
      · rcases h with h | h
        · exact absurd h hv
        · exact h

theorem mem_mergeField (xs vs : List String) (w : String) :
    w ∈ mergeField xs vs ↔ w ∈ xs ∨ (w ∈ vs ∧ w ≠ "") := by
  induction vs generalizing xs with
  | nil => simp [mergeField]
  | cons a vs ih =>
    show w ∈ mergeField (addValue xs a) vs ↔ _
    rw [ih, mem_addValue]
    simp only [List.mem_cons]
    constructor
    · rintro ((hw | ⟨rfl, ha⟩) | ⟨hw, hne⟩)
      · exact Or.inl hw
      · exact Or.inr ⟨Or.inl rfl, ha⟩
      · exact Or.inr ⟨Or.inr hw, hne⟩
    · rintro (hw | ⟨(rfl | hw), hne⟩)
      · exact Or.inl (Or.inl hw)
      · exact Or.inl (Or.inr ⟨rfl, hne⟩)
      · exact Or.inr ⟨hw, hne⟩

theorem applyEntry_KB (e : InEntry) (t : KbEntry) : (applyEntry e t).KB = t.KB := by
  unfold applyEntry
  split <;> rfl

theorem mem_fieldOf_mergeOne (g : KbEntry → List String) (ge : InEntry → List String)
    (hg : ∀ e t, g (applyEntry e t) =
      if t.KB = e.KB then mergeField (g t) (ge e) else g t)
    (hg0 : ∀ s, g ⟨s, [], [], []⟩ = [])
    (acc : List KbEntry) (e : InEntry) (k v : String) :
    v ∈ fieldOf g (mergeOne acc e) k ↔
      v ∈ fieldOf g acc k ∨ (e.KB = k ∧ k ≠ "" ∧ v ∈ ge e ∧ v ≠ "") := by
  by_cases hkb : e.KB = ""
  · rw [mergeOne, if_pos hkb]
    constructor
    · exact Or.inl
    · rintro (h | ⟨hek, hk, _, _⟩)
      · exact h
      · exact absurd (hkb ▸ hek).symm hk
  · rw [mergeOne, if_neg hkb, mem_fieldOf, mem_fieldOf]
    constructor
    · rintro ⟨t, ht, htk, hv⟩
      rcases List.mem_map.mp ht with ⟨t0, ht0, rfl⟩
      rw [applyEntry_KB] at htk
      rw [hg] at hv
      have ht0acc : t0 ∈ acc ∨ t0 = ⟨e.KB, [], [], []⟩ := by
        by_cases hany : acc.any (fun t => t.KB = e.KB)
        · rw [if_pos hany] at ht0; exact Or.inl ht0
        · rw [if_neg hany] at ht0
          rcases List.mem_append.mp ht0 with h | h
          · exact Or.inl h
          · exact Or.inr (List.mem_singleton.mp h)
      by_cases heq : t0.KB = e.KB
      · rw [if_pos heq] at hv
        rcases (mem_mergeField _ _ _).mp hv with hv | ⟨hv, hne⟩
        · rcases ht0acc with h | rfl
          · exact Or.inl ⟨t0, h, htk, hv⟩
          · rw [hg0] at hv; cases hv
        · exact Or.inr ⟨heq ▸ htk, htk ▸ (heq ▸ hkb), hv, hne⟩
      · rw [if_neg heq] at hv
        rcases ht0acc with h | rfl
        · exact Or.inl ⟨t0, h, htk, hv⟩
        · exact absurd rfl heq
    · rintro (⟨t, ht, htk, hv⟩ | ⟨hek, hk, hv, hne⟩)
      · refine ⟨applyEntry e t, List.mem_map_of_mem _ ?_, by rw [applyEntry_KB, htk], ?_⟩
        · split
          · exact ht
          · exact List.mem_append_left _ ht
        · rw [hg]
          split
          · exact (mem_mergeField _ _ _).mpr (Or.inl hv)
          · exact hv
      · by_cases hany : acc.any (fun t => t.KB = e.KB)
        · rcases List.any_eq_true.mp hany with ⟨t, ht, htk⟩
          rw [decide_eq_true_eq] at htk
          refine ⟨applyEntry e t, ?_, by rw [applyEntry_KB, htk, hek], ?_⟩
          · rw [if_pos hany]; exact List.mem_map_of_mem _ ht
          · rw [hg, if_pos htk]
            exact (mem_mergeField _ _ _).mpr (Or.inr ⟨hv, hne⟩)
        · refine ⟨applyEntry e ⟨e.KB, [], [], []⟩, ?_, by rw [applyEntry_KB]; exact hek, ?_⟩
          · rw [if_neg hany]
            exact List.mem_map_of_mem _ (List.mem_append_right _ (List.mem_singleton.mpr rfl))
          · rw [hg, if_pos rfl, hg0]
            exact (mem_mergeField _ _ _).mpr (Or.inr ⟨hv, hne⟩)

theorem mem_fieldOf_merge (g : KbEntry → List String) (ge : InEntry → List String)
    (hg : ∀ e t, g (applyEntry e t) =
      if t.KB = e.KB then mergeField (g t) (ge e) else g t)
    (hg0 : ∀ s, g ⟨s, [], [], []⟩ = [])
    (acc : List KbEntry) (inc : List InEntry) (k v : String) :
    v ∈ fieldOf g (merge_kb_entries acc inc) k ↔
      v ∈ fieldOf g acc k ∨ (k ≠ "" ∧ v ≠ "" ∧ ∃ e ∈ inc, e.KB = k ∧ v ∈ ge e) := by
  induction inc generalizing acc with
  | nil => simp [merge_kb_entries]
  | cons e inc ih =>
    show v ∈ fieldOf g (merge_kb_entries (mergeOne acc e) inc) k ↔ _
    rw [ih, mem_fieldOf_mergeOne g ge hg hg0]
    simp only [List.mem_cons]
    constructor
    · rintro ((hv | ⟨hek, hk, hv, hne⟩) | ⟨hk, hne, t, ht, htk, hv⟩)
      · exact Or.inl hv
      · exact Or.inr ⟨hk, hne, e, Or.inl rfl, hek, hv⟩
      · exact Or.inr ⟨hk, hne, t, Or.inr ht, htk, hv⟩
    · rintro (hv | ⟨hk, hne, t, (rfl | ht), htk, hv⟩)
      · exact Or.inl (Or.inl hv)
      · exact Or.inl (Or.inr ⟨htk, hk, hv, hne⟩)
      · exact Or.inr ⟨hk, hne, t, ht, htk, hv⟩

theorem nodup_addValue {xs : List String} (v : String) (h : xs.Nodup) :
    (addValue xs v).Nodup := by
  unfold addValue
  split
  · rename_i hc
    refine List.Nodup.append h (List.nodup_singleton v) ?_
    intro a ha hb
    rw [List.mem_singleton] at hb
    subst hb
    exact hc.2 ha
  · exact h

theorem nodup_mergeField {xs : List String} (vs : List String) (h : xs.Nodup) :
    (mergeField xs vs).Nodup := by
  induction vs generalizing xs with
  | nil => exact h
  | cons a vs ih => exact ih (nodup_addValue a h)

theorem nodup_fieldOf_mergeOne (g : KbEntry → List String) (ge : InEntry → List String)
    (hg : ∀ e t, g (applyEntry e t) =
      if t.KB = e.KB then mergeField (g t) (ge e) else g t)
    (hg0 : ∀ s, g ⟨s, [], [], []⟩ = [])
    (acc : List KbEntry) (e : InEntry)
    (hacc : ∀ t ∈ acc, (g t).Nodup) :
    ∀ t ∈ mergeOne acc e, (g t).Nodup := by
  intro t ht
  unfold mergeOne at ht
  split at ht
  · exact hacc t ht
  · rcases List.mem_map.mp ht with ⟨t0, ht0, rfl⟩
    have ht0' : t0 ∈ acc ∨ t0 = ⟨e.KB, [], [], []⟩ := by
      split at ht0
      · exact Or.inl ht0
      · rcases List.mem_append.mp ht0 with h | h
        · exact Or.inl h
        · exact Or.inr (List.mem_singleton.mp h)
    have hnd : (g t0).Nodup := by
      rcases ht0' with h | rfl
      · exact hacc t0 h
      · rw [hg0]; exact List.nodup_nil
    rw [hg]
    split
    · exact nodup_mergeField _ hnd
    · exact hnd

theorem nodup_fieldOf_merge (g : KbEntry → List String) (ge : InEntry → List String)
    (hg : ∀ e t, g (applyEntry e t) =
      if t.KB = e.KB then mergeField (g t) (ge e) else g t)
    (hg0 : ∀ s, g ⟨s, [], [], []⟩ = [])
    (acc : List KbEntry) (inc : List InEntry)
    (hacc : ∀ t ∈ acc, (g t).Nodup) :
    ∀ t ∈ merge_kb_entries acc inc, (g t).Nodup := by
  induction inc generalizing acc with
  | nil => exact hacc
  | cons e inc ih =>
    exact ih (mergeOne acc e) (nodup_fieldOf_mergeOne g ge hg hg0 acc e hacc)

theorem sortedSet_eq_nil (xs : List String) : sortedSet xs = [] ↔ xs = [] := by
  constructor
  · intro h
    have h' : List.insertionSort (fun a b => a ≤ b) xs.dedup = [] := h
    have hp := List.perm_insertionSort (fun a b => a ≤ b) xs.dedup
    rw [h'] at hp
    exact (List.dedup_eq_nil xs).mp (hp.symm.eq_nil)
  · intro h
    subst h
    rfl

theorem applyEntry_Months (e : InEntry) (t : KbEntry) :
    (applyEntry e t).Months =
      if t.KB = e.KB then mergeField t.Months e.Months else t.Months := by
  unfold applyEntry; split <;> rfl

theorem applyEntry_Cves (e : InEntry) (t : KbEntry) :
    (applyEntry e t).Cves =
      if t.KB = e.KB then mergeField t.Cves e.Cves else t.Cves := by
  unfold applyEntry; split <;> rfl

theorem applyEntry_Supersedes (e : InEntry) (t : KbEntry) :
    (applyEntry e t).Supersedes =
      if t.KB = e.KB then mergeField t.Supersedes e.Supersedes else t.Supersedes := by
  unfold applyEntry; split <;> rfl

/-- C6: merging partial records unions each of the three array fields with
set semantics — membership afterwards is membership before or membership
in a same-key incoming record (so no element is ever removed), duplicates
are never introduced — each canonical record's classification is
`Superseding` exactly when its superseded-set is non-empty (else
`Standalone`), and the concrete two-batch merge of the claim yields
canonical X with months `{2024-Jan, 2024-Feb}`, vulnerability set `{V1}`,
superseded-set `{Y}` and classification `Superseding`. -/
theorem record_merge_spec :
    (∀ (acc : List KbEntry) (inc : List InEntry) (k v : String),
      (v ∈ fieldOf KbEntry.Months (merge_kb_entries acc inc) k ↔
        v ∈ fieldOf KbEntry.Months acc k ∨
          (k ≠ "" ∧ v ≠ "" ∧ ∃ e ∈ inc, e.KB = k ∧ v ∈ e.Months)) ∧
      (v ∈ fieldOf KbEntry.Cves (merge_kb_entries acc inc) k ↔
        v ∈ fieldOf KbEntry.Cves acc k ∨
          (k ≠ "" ∧ v ≠ "" ∧ ∃ e ∈ inc, e.KB = k ∧ v ∈ e.Cves)) ∧
      (v ∈ fieldOf KbEntry.Supersedes (merge_kb_entries acc inc) k ↔
        v ∈ fieldOf KbEntry.Supersedes acc k ∨
          (k ≠ "" ∧ v ≠ "" ∧ ∃ e ∈ inc, e.KB = k ∧ v ∈ e.Supersedes))) ∧
    (∀ (acc : List KbEntry) (inc : List InEntry),
      (∀ t ∈ acc, t.Months.Nodup ∧ t.Cves.Nodup ∧ t.Supersedes.Nodup) →
      ∀ t ∈ merge_kb_entries acc inc,
        t.Months.Nodup ∧ t.Cves.Nodup ∧ t.Supersedes.Nodup) ∧
    (∀ t : KbEntry,
      ((finalizeEntry t).UpdateType = "Superseding" ↔ t.Supersedes ≠ []) ∧
      ((finalizeEntry t).UpdateType = "Standalone" ↔ t.Supersedes = [])) ∧
    (merge_kb_entries []
        [⟨"X", ["2024-Jan"], ["V1"], []⟩,
         ⟨"X", ["2024-Jan", "2024-Feb"], [], ["Y"]⟩] =
      [⟨"X", ["2024-Jan", "2024-Feb"], ["V1"], ["Y"]⟩]) ∧
    (finalizeEntry ⟨"X", ["2024-Jan", "2024-Feb"], ["V1"], ["Y"]⟩).UpdateType =
      "Superseding" := by
  refine ⟨?_, ?_, ?_, by decide, by decide⟩
  · intro acc inc k v
    exact ⟨mem_fieldOf_merge KbEntry.Months InEntry.Months
        applyEntry_Months (fun _ => rfl) acc inc k v,
      mem_fieldOf_merge KbEntry.Cves InEntry.Cves
        applyEntry_Cves (fun _ => rfl) acc inc k v,
      mem_fieldOf_merge KbEntry.Supersedes InEntry.Supersedes
        applyEntry_Supersedes (fun _ => rfl) acc inc k v⟩
  · intro acc inc hacc t ht
    exact ⟨nodup_fieldOf_merge KbEntry.Months InEntry.Months
        applyEntry_Months (fun _ => rfl) acc inc (fun t ht => (hacc t ht).1) t ht,
      nodup_fieldOf_merge KbEntry.Cves InEntry.Cves
        applyEntry_Cves (fun _ => rfl) acc inc (fun t ht => (hacc t ht).2.1) t ht,
      nodup_fieldOf_merge KbEntry.Supersedes InEntry.Supersedes
        applyEntry_Supersedes (fun _ => rfl) acc inc (fun t ht => (hacc t ht).2.2) t ht⟩
  · intro t
    have hcl : (finalizeEntry t).UpdateType =
        if sortedSet t.Supersedes ≠ [] then "Superseding" else "Standalone" := rfl
    by_cases h : t.Supersedes = []
    · have hs : sortedSet t.Supersedes = [] := (sortedSet_eq_nil _).mpr h
      rw [hcl, hs, if_neg (by simp)]
      constructor
      · exact ⟨fun hbad => absurd hbad (by decide), fun hne => absurd h hne⟩
      · exact ⟨fun _ => h, fun _ => rfl⟩
    · have hs : sortedSet t.Supersedes ≠ [] :=
        fun hc => h ((sortedSet_eq_nil _).mp hc)
      rw [hcl, if_pos hs]
      constructor
      · exact ⟨fun _ => h, fun _ => rfl⟩
      · exact ⟨fun hbad => absurd hbad (by decide), fun hnil => absurd hnil h⟩

/-- Witness for C6 at the claim's concrete two-batch merge. -/
theorem record_merge_spec_witness :
    (⟨"X", ["2024-Jan", "2024-Feb"], ["V1"], ["Y"]⟩ : KbEntry).Months.Nodup ∧
    (⟨"X", ["2024-Jan", "2024-Feb"], ["V1"], ["Y"]⟩ : KbEntry).Cves.Nodup ∧
    (⟨"X", ["2024-Jan", "2024-Feb"], ["V1"], ["Y"]⟩ : KbEntry).Supersedes.Nodup :=
  record_merge_spec.2.1 []
    [⟨"X", ["2024-Jan"], ["V1"], []⟩, ⟨"X", ["2024-Jan", "2024-Feb"], [], ["Y"]⟩]
    (by simp)
    ⟨"X", ["2024-Jan", "2024-Feb"], ["V1"], ["Y"]⟩ (by decide)

/-- C10: the merger silently skips incoming records whose identifier is
missing or empty (the accumulator is returned unchanged, so folding a
batch ignores exactly those records) and silently skips empty values
inside the periods/vulnerability/supersedes arrays; being a total
function, it raises no error on such inputs. -/
theorem merge_skip_spec :
    (∀ (acc : List KbEntry) (e : InEntry), e.KB = "" → mergeOne acc e = acc) ∧
    (∀ (acc : List KbEntry) (inc : List InEntry),
      merge_kb_entries acc inc =
        merge_kb_entries acc (inc.filter (fun e => e.KB ≠ ""))) ∧
    (∀ xs vs : List String,
      mergeField xs vs = mergeField xs (vs.filter (fun v => v ≠ ""))) := by
  refine ⟨?_, ?_, ?_⟩
  · intro acc e h
    unfold mergeOne
    rw [if_pos h]
  · intro acc inc
    induction inc generalizing acc with
    | nil => rfl
    | cons e inc ih =>
      show merge_kb_entries (mergeOne acc e) inc = _
      by_cases h : e.KB = ""
      · rw [List.filter_cons_of_neg (by simpa using h)]
        unfold mergeOne
        rw [if_pos h]
        exact ih acc
      · rw [List.filter_cons_of_pos (by simpa using h)]
        exact ih (mergeOne acc e)
  · intro xs vs
    induction vs generalizing xs with
    | nil => rfl
    | cons a vs ih =>
      show mergeField (addValue xs a) vs = _
      by_cases h : a = ""
      · rw [List.filter_cons_of_neg (by simpa using h)]
        have : addValue xs a = xs := by
          unfold addValue
          rw [if_neg (by simp [h])]
        rw [this]
        exact ih xs
      · rw [List.filter_cons_of_pos (by simpa using h)]
        exact ih (addValue xs a)

/-- Witness for C10: a record with an empty identifier leaves the
accumulator untouched. -/
theorem merge_skip_spec_witness :
    mergeOne [⟨"KB1", ["2024-Jan"], [], []⟩] ⟨"", ["m"], ["c"], ["s"]⟩ =
      [⟨"KB1", ["2024-Jan"], [], []⟩] :=
  merge_skip_spec.1 [⟨"KB1", ["2024-Jan"], [], []⟩] ⟨"", ["m"], ["c"], ["s"]⟩ rfl

/-! ## Lemmas: supersedence resolver -/

theorem walk_logical_mono (adj : String → List String) (univ : Finset String)
    (hadj : ∀ x y, y ∈ adj x → y ∈ univ) (hnd : ∀ x, (adj x).Nodup)
    (stack : List String) (seen logical olds : Finset String) :
    logical ⊆ (walk adj univ hadj hnd stack seen logical olds).1 := by
  induction stack, seen, logical, olds using walk.induct adj univ hadj hnd
  case case1 seen logical olds => rw [walk]
  case case2 current rest seen logical olds ih =>
    rw [walk]
    intro a ha
    exact ih (Finset.mem_union_left _ ha)

theorem walk_adj_head (adj : String → List String) (univ : Finset String)
    (hadj : ∀ x y, y ∈ adj x → y ∈ univ) (hnd : ∀ x, (adj x).Nodup)
    (current : String) (rest : List String) (seen logical olds : Finset String) :
    ∀ y ∈ adj current,
      y ∈ (walk adj univ hadj hnd (current :: rest) seen logical olds).1 := by
  intro y hy
  rw [walk]
  exact walk_logical_mono adj univ hadj hnd _ _ _ _
    (Finset.mem_union_right _ (List.mem_toFinset.mpr hy))

theorem foldl_superStep_mono (adj : String → List String) (univ : Finset String)
    (hadj : ∀ x y, y ∈ adj x → y ∈ univ) (hnd : ∀ x, (adj x).Nodup)
    (roots : List String) (acc : Finset String × (String → Finset String)) :
    acc.1 ⊆ (roots.foldl (superStep adj univ hadj hnd) acc).1 := by
  induction roots generalizing acc with
  | nil => exact fun a ha => ha
  | cons r roots ih =>
    intro a ha
    refine ih (superStep adj univ hadj hnd acc r) ?_
    show a ∈ (walk adj univ hadj hnd [r] {r} acc.1 ∅).1
    exact walk_logical_mono adj univ hadj hnd [r] {r} acc.1 ∅ ha

theorem foldl_superStep_adj (adj : String → List String) (univ : Finset String)
    (hadj : ∀ x y, y ∈ adj x → y ∈ univ) (hnd : ∀ x, (adj x).Nodup)
    (roots : List String) (acc : Finset String × (String → Finset String))
    (r : String) :
    r ∈ roots → ∀ y ∈ adj r,
      y ∈ (roots.foldl (superStep adj univ hadj hnd) acc).1 := by
  induction roots generalizing acc with
  | nil => intro hr; cases hr
  | cons r0 roots ih =>
    intro hr y hy
    rcases List.mem_cons.mp hr with rfl | hr'
    · refine foldl_superStep_mono adj univ hadj hnd roots
        (superStep adj univ hadj hnd acc r) ?_
      show y ∈ (walk adj univ hadj hnd [r] {r} acc.1 ∅).1
      exact walk_adj_head adj univ hadj hnd r [] {r} acc.1 ∅ y hy
    · exact ih (superStep adj univ hadj hnd acc r0) hr' y hy

theorem mem_supersedesMap (entries : List KbEntry) (e : KbEntry) (y : String)
    (he : e ∈ entries) (hy : y ∈ e.Supersedes) :
    y ∈ supersedesMap entries e.KB := by
  unfold supersedesMap
  rw [List.mem_dedup, List.mem_flatMap]
  exact ⟨e, List.mem_filter.mpr ⟨he, by simp⟩, hy⟩

theorem compute_supersedence_fst (entries : List KbEntry) (installed : List String) :
    (compute_supersedence entries installed).1 =
      (installed.foldl
        (superStep (supersedesMap entries) (allNodes entries installed)
          (supersedesMap_mem_allNodes entries installed)
          (supersedesMap_nodup entries))
        (installed.toFinset, fun _ => ∅)).1 := rfl

theorem installed_subset_logical (entries : List KbEntry) (installed : List String) :
    installed.toFinset ⊆ (compute_supersedence entries installed).1 := by
  rw [compute_supersedence_fst]
  exact foldl_superStep_mono _ _ _ _ installed (installed.toFinset, fun _ => ∅)

/-- C1: for every installed set and every set of canonical records, the
logical presence set returned by the supersedence computation is a
superset of the installed set, and the missing set — all known record
identifiers minus logical presence — is disjoint from both the installed
set and the logical presence set. -/
theorem supersedence_invariants (entries : List KbEntry) (installed : List String) :
    installed.toFinset ⊆ (compute_supersedence entries installed).1 ∧
    ((entries.map KbEntry.KB).toFinset \ (compute_supersedence entries installed).1)
        ∩ installed.toFinset = ∅ ∧
    ((entries.map KbEntry.KB).toFinset \ (compute_supersedence entries installed).1)
        ∩ (compute_supersedence entries installed).1 = ∅ := by
  refine ⟨installed_subset_logical entries installed, ?_, ?_⟩
  · ext a
    simp only [Finset.mem_inter, Finset.mem_sdiff, Finset.not_mem_empty, iff_false,
      not_and]
    rintro ⟨_, hnot⟩ hin
    exact hnot (installed_subset_logical entries installed hin)
  · ext a
    simp only [Finset.mem_inter, Finset.mem_sdiff, Finset.not_mem_empty, iff_false,
      not_and]
    rintro ⟨_, hnot⟩ hin
    exact hnot hin

/-- C2: on a supersedes relation containing a cycle — A supersedes B and B
supersedes A — with A installed, the traversal (defined by well-founded
recursion, hence terminating: each step either empties the stack or
consumes an unseen node) returns a logical presence set containing both A
and B. -/
theorem supersedence_cycle (entries : List KbEntry) (installed : List String)
    (A B : String) (eA eB : KbEntry)
    (hA : eA ∈ entries) (hAkb : eA.KB = A) (hAsup : B ∈ eA.Supersedes)
    (hB : eB ∈ entries) (hBkb : eB.KB = B) (hBsup : A ∈ eB.Supersedes)
    (hInst : A ∈ installed) :
    A ∈ (compute_supersedence entries installed).1 ∧
    B ∈ (compute_supersedence entries installed).1 := by
  constructor
  · exact installed_subset_logical entries installed (List.mem_toFinset.mpr hInst)
  · have hBmap : B ∈ supersedesMap entries A :=
      hAkb ▸ mem_supersedesMap entries eA B hA hAsup
    rw [compute_supersedence_fst]
    exact foldl_superStep_adj _ _ _ _ installed (installed.toFinset, fun _ => ∅)
      A hInst B hBmap

/-- Witness for C2 on the two-cycle `{A supersedes B, B supersedes A}`
with `A` installed. -/
theorem supersedence_cycle_witness :
    "A" ∈ (compute_supersedence
      [⟨"A", [], [], ["B"]⟩, ⟨"B", [], [], ["A"]⟩] ["A"]).1 ∧
    "B" ∈ (compute_supersedence
      [⟨"A", [], [], ["B"]⟩, ⟨"B", [], [], ["A"]⟩] ["A"]).1 :=
  supersedence_cycle [⟨"A", [], [], ["B"]⟩, ⟨"B", [], [], ["A"]⟩] ["A"]
    "A" "B" ⟨"A", [], [], ["B"]⟩ ⟨"B", [], [], ["A"]⟩
    (by decide) rfl (by decide) (by decide) rfl (by decide) (by decide)

/-! ## Lemmas: correlation reporter -/

/-- C7: the reporter's status precedence — `Installed` when the identifier
is installed; else `Superseded`, annotated with the satisfying root list
when that list is non-empty; else `Missing` — and identifiers with no
canonical record get the `Unmapped` placeholder row (empty period and
vulnerability columns). -/
theorem correlation_status_spec (entries : List FinalEntry)
    (installed logicalPresent : Finset String)
    (sb : String → List String) (kb : String) :
    (kb ∈ installed → kbStatus installed logicalPresent sb kb = "Installed") ∧
    (kb ∉ installed → kb ∈ logicalPresent → sb kb ≠ [] →
      kbStatus installed logicalPresent sb kb =
        "Superseded (" ++ String.intercalate ", " (sb kb) ++ ")") ∧
    (kb ∉ installed → kb ∈ logicalPresent → sb kb = [] →
      kbStatus installed logicalPresent sb kb = "Superseded") ∧
    (kb ∉ installed → kb ∉ logicalPresent →
      kbStatus installed logicalPresent sb kb = "Missing") ∧
    (kbIndexFind entries kb = none →
      (rowEntry entries kb).UpdateType = "Unmapped" ∧
      (rowEntry entries kb).Months = [] ∧ (rowEntry entries kb).Cves = []) := by
  refine ⟨?_, ?_, ?_, ?_, ?_⟩
  · intro h
    unfold kbStatus
    rw [if_pos h]
  · intro h1 h2 h3
    unfold kbStatus
    rw [if_neg h1, if_pos h2, if_pos h3]
  · intro h1 h2 h3
    unfold kbStatus
    rw [if_neg h1, if_pos h2, if_neg (by simp [h3])]
  · intro h1 h2
    unfold kbStatus
    rw [if_neg h1, if_neg h2]
  · intro h
    unfold rowEntry
    rw [h]
    exact ⟨rfl, rfl, rfl⟩

/-- Witness for C7 on a concrete three-identifier configuration. -/
theorem correlation_status_spec_witness :
    kbStatus {"KB1"} {"KB1", "KB2"} (fun k => if k = "KB2" then ["KB1"] else [])
      "KB1" = "Installed" ∧
    kbStatus {"KB1"} {"KB1", "KB2"} (fun k => if k = "KB2" then ["KB1"] else [])
      "KB2" = "Superseded (KB1)" ∧
    kbStatus {"KB1"} {"KB1", "KB2"} (fun k => if k = "KB2" then ["KB1"] else [])
      "KB3" = "Missing" ∧
    (rowEntry [] "KB3").UpdateType = "Unmapped" :=
  ⟨(correlation_status_spec [] {"KB1"} {"KB1", "KB2"} _ "KB1").1 (by decide),
   (correlation_status_spec [] {"KB1"} {"KB1", "KB2"} _ "KB2").2.1
     (by decide) (by decide) (by decide),
   (correlation_status_spec [] {"KB1"} {"KB1", "KB2"} _ "KB3").2.2.2.1
     (by decide) (by decide),
   ((correlation_status_spec [] {"KB1"} {"KB1", "KB2"}
       (fun k => if k = "KB2" then ["KB1"] else []) "KB3").2.2.2.2 rfl).1⟩

/-! ## Lemmas: candidate scorer -/

theorem hasSubList_nil (cs : List Char) : hasSubList [] cs = true := by
  cases cs with
  | nil => rfl
  | cons c rest => simp [hasSubList, isPrefixList]

theorem containsStr_empty (s : String) : containsStr s "" = true :=
  hasSubList_nil s.toList

theorem archDelta_cases (title arch : String) :
    archDelta title arch = none ∨ archDelta title arch = some 0 ∨
      archDelta title arch = some 25 := by
  unfold archDelta
  split_ifs <;> simp

theorem dvDelta_cases (title dv : String) :
    dvDelta title dv = 0 ∨ dvDelta title dv = 25 ∨ dvDelta title dv = -15 := by
  unfold dvDelta
  by_cases h1 : dv = ""
  · rw [if_pos h1]
    exact Or.inl rfl
  · rw [if_neg h1]
    by_cases h2 : containsStr title dv = true
    · rw [if_pos h2, if_neg (by rintro ⟨_, hn⟩; exact hn h2)]
      norm_num
    · rw [if_neg h2]
      by_cases h3 : hasYearHalf title = true
      · rw [if_pos ⟨h3, h2⟩]
        norm_num
      · rw [if_neg (by rintro ⟨hy, _⟩; exact h3 hy)]
        norm_num

theorem bmDelta_cases (title bm : String) :
    bmDelta title bm = 0 ∨ bmDelta title bm = 10 ∨ bmDelta title bm = -5 := by
  unfold bmDelta
  by_cases h1 : bm = ""
  · rw [if_pos h1]
    exact Or.inl rfl
  · rw [if_neg h1]
    cases h : bnSearch title.toList with
    | none => exact Or.inl rfl
    | some g =>
      show (if String.mk g = bm then (10 : Int) else -5) = 0 ∨
        (if String.mk g = bm then (10 : Int) else -5) = 10 ∨
        (if String.mk g = bm then (10 : Int) else -5) = -5
      split_ifs <;> norm_num

/-- C8: the scorer never returns a value that is negative without being
the hard-exclusion constant: every score is exactly `-10000` or at least
`30`, so the selector's `score < 0` filter discards exactly the
hard-excluded candidates. -/
theorem score_range_spec (cand : CatalogCandidate) (kb_id : String)
    (c : BaselineConstraints) :
    (score_candidate cand kb_id c = -10000 ∨
      30 ≤ score_candidate cand kb_id c) ∧
    (score_candidate cand kb_id c < 0 ↔ score_candidate cand kb_id c = -10000) := by
  have hmain : score_candidate cand kb_id c = -10000 ∨
      30 ≤ score_candidate cand kb_id c := by
    simp only [score_candidate]
    split_ifs <;>
      first
      | exact Or.inl rfl
      | (refine Or.inr ?_
         have hgd : (archDelta (lowerStr cand.title) c.catalog_arch).getD 0 = 0 ∨
             (archDelta (lowerStr cand.title) c.catalog_arch).getD 0 = 25 := by
           rcases archDelta_cases (lowerStr cand.title) c.catalog_arch with h | h | h <;>
             rw [h] <;> simp
         rcases hgd with h | h <;>
         rcases dvDelta_cases (lowerStr cand.title) (lowerStr c.display_version)
           with hd | hd | hd <;>
         rcases bmDelta_cases (lowerStr cand.title) c.build_major with hb | hb | hb <;>
           rw [h, hd, hb] <;> norm_num)
  refine ⟨hmain, ?_⟩
  constructor
  · intro hneg
    rcases hmain with h | h
    · exact h
    · omega
  · intro h
    rw [h]
    norm_num

/-- C3: a candidate whose title does not contain the target identifier
(case-insensitively) scores exactly `-10000` regardless of every other
field and constraint; a candidate whose title contains the identifier,
the known OS generation and the matching architecture marker — and no
competing generation/server/architecture marker, no display-version
evidence and no build-number evidence — scores exactly `115 = 50+40+25`. -/
theorem score_rules_spec :
    (∀ (cand : CatalogCandidate) (kb_id : String) (c : BaselineConstraints),
      containsStr (lowerStr cand.title) (lowerStr kb_id) = false →
      score_candidate cand kb_id c = -10000) ∧
    (∀ (cand : CatalogCandidate) (kb_id : String) (c : BaselineConstraints),
      containsStr (lowerStr cand.title) (lowerStr kb_id) = true →
      (c.windows_gen = "windows 10" ∨ c.windows_gen = "windows 11") →
      containsStr (lowerStr cand.title) c.windows_gen = true →
      (c.windows_gen = "windows 10" →
        containsStr (lowerStr cand.title) "windows 11" = false) →
      (c.windows_gen = "windows 11" →
        containsStr (lowerStr cand.title) "windows 10" = false) →
      containsStr (lowerStr cand.title) "server" = false →
      ((c.catalog_arch = "x64" ∧
          containsStr (lowerStr cand.title) "x64-based" = true ∧
          containsStr (lowerStr cand.title) "arm64-based" = false ∧
          containsStr (lowerStr cand.title) "x86-based" = false ∧
          containsStr (lowerStr cand.title) "32-bit" = false) ∨
       (c.catalog_arch = "arm64" ∧
          containsStr (lowerStr cand.title) "arm64-based" = true ∧
          containsStr (lowerStr cand.title) "x64-based" = false ∧
          containsStr (lowerStr cand.title) "x86-based" = false ∧
          containsStr (lowerStr cand.title) "32-bit" = false) ∨
       (c.catalog_arch = "x86" ∧
          (containsStr (lowerStr cand.title) "x86-based" = true ∨
           containsStr (lowerStr cand.title) "32-bit" = true) ∧
          containsStr (lowerStr cand.title) "x64-based" = false ∧
          containsStr (lowerStr cand.title) "arm64-based" = false)) →
      (c.display_version = "" ∨
        (containsStr (lowerStr cand.title) (lowerStr c.display_version) = false ∧
         hasYearHalf (lowerStr cand.title) = false)) →
      (c.build_major = "" ∨ bnSearch (lowerStr cand.title).toList = none) →
      score_candidate cand kb_id c = 115) := by
  constructor
  · intro cand kb_id c h
    simp only [score_candidate]
    rw [if_pos (by rw [h]; exact Bool.false_ne_true)]
  · intro cand kb_id c h1 hgen h3 h4 h5 h6 harch hdv hbm
    have hne : c.windows_gen ≠ "" := by
      rcases hgen with h | h <;> rw [h] <;> decide
    have hdvz : dvDelta (lowerStr cand.title) (lowerStr c.display_version) = 0 := by
      unfold dvDelta
      rcases hdv with h | ⟨hc, hy⟩
      · rw [if_pos (by rw [h]; rfl)]
      · have hne' : (lowerStr c.display_version) ≠ "" := by
          intro habs
          rw [habs, containsStr_empty] at hc
          exact absurd hc (by decide)
        rw [if_neg hne', if_neg (by rw [hc]; exact Bool.false_ne_true),
          if_neg (by rintro ⟨hyy, _⟩; rw [hy] at hyy; exact absurd hyy (by decide))]
        norm_num
    have hbmz : bmDelta (lowerStr cand.title) c.build_major = 0 := by
      unfold bmDelta
      by_cases h0 : c.build_major = ""
      · rw [if_pos h0]
      · rw [if_neg h0]
        rcases hbm with h | h
        · exact absurd h h0
        · rw [h]
    have harchv : archDelta (lowerStr cand.title) c.catalog_arch = some 25 := by
      unfold archDelta
      rcases harch with ⟨ha, hb1, hb2, hb3, hb4⟩ | ⟨ha, hb1, hb2, hb3, hb4⟩ |
        ⟨ha, hb1, hb2, hb3⟩
      · rw [ha]
        rw [if_pos rfl, if_neg (by rw [hb2, hb3, hb4]; decide),
          if_pos (by rw [hb1])]
      · rw [ha]
        rw [if_neg (by decide), if_pos rfl,
          if_neg (by rw [hb2, hb3, hb4]; decide), if_pos (by rw [hb1])]
      · rw [ha]
        rw [if_neg (by decide), if_neg (by decide), if_pos rfl,
          if_neg (by rw [hb2, hb3]; decide)]
        rcases hb1 with hb1 | hb1
        · rw [if_pos (by rw [hb1]; simp)]
        · rw [if_pos (by rw [hb1]; simp)]
    simp only [score_candidate]
    rw [if_neg (by rw [h1]; exact fun h => h rfl)]
    rw [if_neg ?gen10, if_neg ?gen11, if_neg ?server]
    case gen10 =>
      rintro ⟨hg, hc⟩
      rw [h4 hg] at hc
      exact absurd hc (by decide)
    case gen11 =>
      rintro ⟨hg, hc⟩
      rw [h5 hg] at hc
      exact absurd hc (by decide)
    case server =>
      rintro ⟨_, hc⟩
      rw [h6] at hc
      exact absurd hc (by decide)
    rw [if_neg (by rw [harchv]; decide), harchv]
    rw [if_pos ⟨hne, by rw [h3]⟩, hdvz, hbmz]
    norm_num

/-- Witness for C3: the hard-excluded and the clean 115-scoring candidate. -/
theorem score_rules_spec_witness :
    score_candidate
      ⟨"u1", "Cumulative Update for Windows 11 for x64-based Systems (KB5034123)",
        "", "", "", "", ""⟩ "KB9999999" ⟨"windows 11", "23H2", "22631", "x64"⟩ =
      -10000 ∧
    score_candidate
      ⟨"u1", "Cumulative Update for Windows 11 for x64-based Systems (KB5034123)",
        "", "", "", "", ""⟩ "KB5034123" ⟨"windows 11", "23H2", "22631", "x64"⟩ =
      115 :=
  ⟨score_rules_spec.1 _ "KB9999999" ⟨"windows 11", "23H2", "22631", "x64"⟩
    (by decide),
   score_rules_spec.2 _ "KB5034123" ⟨"windows 11", "23H2", "22631", "x64"⟩
    (by decide) (Or.inr rfl) (by decide) (fun h => absurd h (by decide))
    (fun _ => by decide)
    (by decide) (Or.inl ⟨rfl, by decide, by decide, by decide, by decide⟩)
    (Or.inr ⟨by decide, by decide⟩) (Or.inr (by decide))⟩


/-- C9: an architecture string that is not recognized as x64/amd64, arm64
or x86/32-bit (including the empty string) defaults the derived
architecture tag to x64, so a candidate title bearing an arm64 or x86
marker is hard-excluded (score exactly `-10000`) under the derived
constraints. -/
theorem arch_default_spec (osName displayVersion arch build : String)
    (h1 : lowerStr arch ≠ "x64") (h2 : lowerStr arch ≠ "amd64")
    (h3 : containsStr (lowerStr arch) "arm64" = false)
    (h4 : lowerStr arch ≠ "x86") (h5 : lowerStr arch ≠ "32-bit") :
    (build_constraints osName displayVersion arch build).catalog_arch = "x64" ∧
    ∀ (cand : CatalogCandidate) (kb_id : String),
      (containsStr (lowerStr cand.title) "arm64-based" = true ∨
       containsStr (lowerStr cand.title) "x86-based" = true ∨
       containsStr (lowerStr cand.title) "32-bit" = true) →
      score_candidate cand kb_id
        (build_constraints osName displayVersion arch build) = -10000 := by
  have harch :
      (build_constraints osName displayVersion arch build).catalog_arch = "x64" := by
    simp only [build_constraints]
    rw [if_neg (by rintro (h | h); exacts [h1 h, h2 h]),
      if_neg (by rw [h3]; exact Bool.false_ne_true),
      if_neg (by rintro (h | h); exacts [h4 h, h5 h])]
  refine ⟨harch, ?_⟩
  intro cand kb_id hmark
  have hcond : (containsStr (lowerStr cand.title) "arm64-based" ||
      containsStr (lowerStr cand.title) "x86-based" ||
      containsStr (lowerStr cand.title) "32-bit") = true := by
    rcases hmark with h | h | h <;> simp [h]
  have hnone : archDelta (lowerStr cand.title)
      (build_constraints osName displayVersion arch build).catalog_arch = none := by
    rw [harch]
    unfold archDelta
    simp [hcond]
  simp only [score_candidate]
  rw [if_pos (show (archDelta (lowerStr cand.title)
      (build_constraints osName displayVersion arch build).catalog_arch).isNone =
        true by rw [hnone]; rfl)]
  split_ifs <;> rfl

/-- Witness for C9 with the unrecognized architecture string `"mips"`. -/
theorem arch_default_spec_witness :
    (build_constraints "Windows 11 Pro" "23H2" "mips" "22631.3007").catalog_arch =
      "x64" ∧
    score_candidate
      ⟨"u2", "Update for Windows 11 for arm64-based Systems (KB5034123)",
        "", "", "", "", ""⟩ "KB5034123"
      (build_constraints "Windows 11 Pro" "23H2" "mips" "22631.3007") = -10000 :=
  ⟨(arch_default_spec "Windows 11 Pro" "23H2" "mips" "22631.3007"
      (by decide) (by decide) (by decide) (by decide) (by decide)).1,
   (arch_default_spec "Windows 11 Pro" "23H2" "mips" "22631.3007"
      (by decide) (by decide) (by decide) (by decide) (by decide)).2
     ⟨"u2", "Update for Windows 11 for arm64-based Systems (KB5034123)",
       "", "", "", "", ""⟩ "KB5034123" (Or.inl (by decide))⟩

/-! ## Lemmas: candidate selector -/

theorem insertionSort_head_first_max
    (l1 l2 : List (Int × CatalogCandidate)) (p : Int × CatalogCandidate)
    (hmax : ∀ q ∈ l1 ++ p :: l2, q.1 ≤ p.1)
    (hstrict : ∀ q ∈ l1, q.1 < p.1) :
    ((l1 ++ p :: l2).insertionSort fun a b => b.1 ≤ a.1).head? = some p := by
  induction l1 with
  | nil =>
    simp only [List.nil_append, List.insertionSort]
    cases hs : (l2.insertionSort fun a b => b.1 ≤ a.1) with
    | nil => rfl
    | cons b t =>
      have hb : b ∈ l2 := by
        have hmem : b ∈ l2.insertionSort fun a b => b.1 ≤ a.1 := by
          rw [hs]; exact List.mem_cons_self b t
        exact (List.perm_insertionSort _ l2).subset hmem
      have hble : b.1 ≤ p.1 := hmax b (List.mem_cons.mpr (Or.inr hb))
      simp only [List.orderedInsert]
      rw [if_pos hble]
      rfl
  | cons a l1 ih =>
    have hmax' : ∀ q ∈ l1 ++ p :: l2, q.1 ≤ p.1 :=
      fun q hq => hmax q (List.mem_cons_of_mem a hq)
    have hstrict' : ∀ q ∈ l1, q.1 < p.1 :=
      fun q hq => hstrict q (List.mem_cons_of_mem a hq)
    have hihead := ih hmax' hstrict'
    simp only [List.cons_append, List.insertionSort]
    cases hs : ((l1 ++ p :: l2).insertionSort fun a b => b.1 ≤ a.1) with
    | nil => rw [hs] at hihead; cases hihead
    | cons b t =>
      rw [hs] at hihead
      have hbp : b = p := by simpa using hihead
      subst hbp
      have ha : a.1 < b.1 := hstrict a (List.mem_cons_self a l1)
      simp only [List.orderedInsert]
      rw [if_neg (by omega)]
      rfl

/-- C4: the selector discards every candidate scoring below zero; if none
remain it fails with the NoMatch message; otherwise, with `(s, b)` the
first survivor attaining the maximal score (ties keep catalog order, by
stability of the sort), it fails with the AmbiguousMatch message carrying
`s` when `s < 90`, and returns `b` when `s ≥ 90`. -/
theorem choose_best_spec (candidates : List CatalogCandidate) (kb_id : String)
    (c : BaselineConstraints) :
    ((∀ cd ∈ candidates, score_candidate cd kb_id c < 0) →
      choose_best_candidate candidates kb_id c = (none, some noMatchMsg)) ∧
    (∀ (s : Int) (b : CatalogCandidate)
        (l1 l2 : List (Int × CatalogCandidate)),
      survivors candidates kb_id c = l1 ++ (s, b) :: l2 →
      (∀ q ∈ survivors candidates kb_id c, q.1 ≤ s) →
      (∀ q ∈ l1, q.1 < s) →
      ((s < 90 →
          choose_best_candidate candidates kb_id c =
            (none, some (ambiguousMsg s))) ∧
       (90 ≤ s →
          choose_best_candidate candidates kb_id c = (some b, none)))) := by
  constructor
  · intro hall
    have hsurv : survivors candidates kb_id c = [] := by
      unfold survivors
      rw [List.filter_eq_nil_iff]
      intro p hp
      rcases List.mem_map.mp hp with ⟨cd, hcd, rfl⟩
      have := hall cd hcd
      simp only [decide_eq_true_eq]
      omega
    unfold choose_best_candidate
    rw [hsurv]
    rfl
  · intro s b l1 l2 hsplit hmax hstrict
    have hhead : ((survivors candidates kb_id c).insertionSort
        fun a b => b.1 ≤ a.1).head? = some (s, b) := by
      rw [hsplit]
      exact insertionSort_head_first_max l1 l2 (s, b)
        (by rw [← hsplit]; exact hmax) hstrict
    constructor
    · intro hlt
      unfold choose_best_candidate
      rw [hhead, Option.elim_some, if_pos hlt]
    · intro hge
      unfold choose_best_candidate
      rw [hhead, Option.elim_some, if_neg (by omega)]

/-- Witness for C4: a 115-scoring candidate beats a 60-scoring one; a
single 60-scoring survivor is an ambiguous match; an all-excluded list is
a no-match. -/
theorem choose_best_spec_witness :
    choose_best_candidate
      [⟨"u3", "Something for you (KB5034123) (22631.5)", "", "", "", "", ""⟩,
       ⟨"u1", "Cumulative Update for Windows 11 for x64-based Systems (KB5034123)",
         "", "", "", "", ""⟩]
      "KB5034123" ⟨"windows 11", "", "22631", "x64"⟩ =
      (some ⟨"u1",
        "Cumulative Update for Windows 11 for x64-based Systems (KB5034123)",
        "", "", "", "", ""⟩, none) ∧
    choose_best_candidate
      [⟨"u3", "Something for you (KB5034123) (22631.5)", "", "", "", "", ""⟩]
      "KB5034123" ⟨"windows 11", "", "22631", "x64"⟩ =
      (none, some (ambiguousMsg 60)) ∧
    choose_best_candidate
      [⟨"u3", "Something for you (KB5034123) (22631.5)", "", "", "", "", ""⟩]
      "KB9999999" ⟨"windows 11", "", "22631", "x64"⟩ =
      (none, some noMatchMsg) :=
  ⟨((choose_best_spec _ "KB5034123" ⟨"windows 11", "", "22631", "x64"⟩).2
      115 ⟨"u1",
        "Cumulative Update for Windows 11 for x64-based Systems (KB5034123)",
        "", "", "", "", ""⟩
      [(60, ⟨"u3", "Something for you (KB5034123) (22631.5)", "", "", "", "", ""⟩)]
      [] (by decide) (by decide) (by decide)).2 (by decide),
   ((choose_best_spec _ "KB5034123" ⟨"windows 11", "", "22631", "x64"⟩).2
      60 ⟨"u3", "Something for you (KB5034123) (22631.5)", "", "", "", "", ""⟩
      [] [] (by decide) (by decide) (by decide)).1 (by decide),
   (choose_best_spec _ "KB9999999" ⟨"windows 11", "", "22631", "x64"⟩).1
     (by decide)⟩

end WinShield
